import Mathlib

/-!
Shallow embedding of the evaluation core of PyCABeM (benchapps.py): the
separator-delimited naming codec (instance / shuffle / path-id decoding),
the candidate filtering of evalGeneric, the accumulation-file naming, the
per-job aggregation callbacks, and the path preparation (preparePath).
Names are modelled as lists of characters; Python string primitives
(rfind, endswith, os.path.split, os.path.splitext, int() validation,
str.rsplit) are embedded as total Lean functions with the same semantics.
-/

namespace PyCABeM

/-- Characters of a Lean string literal, used for concrete inputs. -/
def str (s : String) : List Char := s.data

/-- Network instances separator (`_SEPINST` in benchapps.py). -/
def SEPINST : Char := '^'

/-- Network parameters separator (`_SEPPARS`). -/
def SEPPARS : Char := '!'

/-- Network path id separator (`_SEPPATHID`). -/
def SEPPATHID : Char := '#'

/-- File marker of the pathid (`_PATHID_FILE`). -/
def PATHIDFILE : Char := 'f'

/-- Index of the last occurrence of `c` in `l`, as Python `str.rfind`
(with `none` standing for the Python result `-1`). -/
def rfindIdx (l : List Char) (c : Char) : Option Nat :=
  match l with
  | [] => none
  | x :: xs =>
    match rfindIdx xs c with
    | some i => some (i + 1)
    | none => if x = c then some 0 else none

/-- Strip whitespace from both ends, as Python `int()` does before parsing. -/
def pyTrim (l : List Char) : List Char :=
  ((l.dropWhile Char.isWhitespace).reverse.dropWhile Char.isWhitespace).reverse

/-- Sign-and-digits validation on an already trimmed literal. -/
def pyIntValidCore : List Char → Bool
  | [] => false
  | c :: rest =>
    if c = '+' ∨ c = '-' then !rest.isEmpty && rest.all Char.isDigit
    else (c :: rest).all Char.isDigit

/-- Whether Python `int(s)` succeeds on `s`: optional surrounding whitespace,
an optional sign, then one or more decimal digits. -/
def pyIntValid (l : List Char) : Bool :=
  pyIntValidCore (pyTrim l)

/-- Python `cls.endswith(sfx)`. -/
def pyEndsWith (cls sfx : List Char) : Bool :=
  cls.drop (cls.length - sfx.length) == sfx

/-- Index where `os.path.splitext` cuts the extension off (length of the
root part); equals the full length when there is no extension.  Mirrors
posixpath: the extension starts at the last dot that lies after the last
slash and is preceded (within the file name) by some non-dot character. -/
def extIndex (p : List Char) : Nat :=
  match rfindIdx p '.' with
  | none => p.length
  | some d =>
    let s : Nat :=
      match rfindIdx p '/' with
      | none => 0
      | some i => i + 1
    if s ≤ d ∧ ((p.drop s).take (d - s)).any (fun c => c ≠ '.') then d
    else p.length

/-- Python `os.path.splitext` (posix). -/
def pySplitext (p : List Char) : List Char × List Char :=
  (p.take (extIndex p), p.drop (extIndex p))

/-- Python `os.path.split` (posix): split at the last slash; the head keeps
no trailing slashes unless it consists of slashes only. -/
def pySplit (p : List Char) : List Char × List Char :=
  let i : Nat :=
    match rfindIdx p '/' with
    | none => 0
    | some k => k + 1
  let head := p.take i
  let tail := p.drop i
  let head :=
    if head ≠ [] ∧ head.any (fun c => c ≠ '/') then
      (head.reverse.dropWhile (fun c => c = '/')).reverse
    else head
  (head, tail)

/-- Python `p.rsplit(c, 1)` when it actually splits: the parts around the
last occurrence of `c`, or `none` when `c` does not occur. -/
def rsplitLast (p : List Char) (c : Char) : Option (List Char × List Char) :=
  match rfindIdx p c with
  | none => none
  | some i => some (p.take i, p.drop (i + 1))

/-- Minimum of a list of naturals, `none` on the empty list. -/
def minNat (l : List Nat) : Option Nat :=
  l.foldl (fun acc x =>
    match acc with
    | none => some x
    | some m => some (min m x)) none

/-! ## Path-id filtering of candidate cluster directories (evalGeneric, lines 139-161) -/

/-- Decision of the path-id filter on one candidate directory name:
either the candidate is skipped, or it is kept (possibly after a logged
warning about a malformed path-id suffix). -/
inductive PFDecision where
  | skip : PFDecision
  | accept (warned : Bool) : PFDecision
deriving DecidableEq

/-- Payload after the path-id separator found at index `i` of `cls`,
skipping the optional file marker right after the separator
(benchapps.py lines 147-151: `if clsname[icnpid + 1] == _PATHID_FILE:
icnpid += 1` and then `clsname[icnpid + 1:]`). -/
def pidPayload (cls : List Char) (i : Nat) : List Char :=
  if cls[i + 1]? == some PATHIDFILE then cls.drop (i + 2) else cls.drop (i + 1)

/-- Decoded path-id of a candidate name (the suffix starting at the last
path-id separator, when the remainder after the separator - skipping an
optional file marker - validates as an integer), per the validation logic
of benchapps.py lines 144-160. -/
def decodedPathid (cls : List Char) : Option (List Char) :=
  match rfindIdx cls SEPPATHID with
  | none => none
  | some i =>
    if i + 1 < cls.length then
      if pyIntValid (pidPayload cls i) then some (cls.drop i) else none
    else none

/-- The path-id filter of evalGeneric (benchapps.py lines 139-161): with a
requested non-empty `pathid` a candidate is kept iff its name ends with the
requested pathid; with an empty request, a candidate carrying a valid
path-id suffix is skipped, and a candidate with a malformed suffix is kept
with a warning. -/
def pathidFilter (pathid cls : List Char) : PFDecision :=
  if pathid ≠ [] then
    if pyEndsWith cls pathid then .accept false else .skip
  else
    match rfindIdx cls SEPPATHID with
    | none => .accept false
    | some i =>
      if i + 1 < cls.length then
        if pyIntValid (pidPayload cls i) then .skip else .accept true
      else .accept false

/-- Full candidate-acceptance decision of evalGeneric (lines 139-165): the
path-id filter followed by the instance filter, which skips a candidate
strictly longer than the task caption whose character right after the
caption is the instance separator.  The caller only presents candidates
whose name starts with the task caption (the glob pattern `taskcapt*`). -/
def acceptGroup (pathid taskcapt cls : List Char) : Bool :=
  match pathidFilter pathid cls with
  | .skip => false
  | .accept _ =>
    !(decide (taskcapt.length < cls.length) && (cls[taskcapt.length]? == some SEPINST))

/-- Shuffle-index decoding of evalGeneric (lines 167-179), applied to the
candidate name truncated before the path-id (`clsname[:icnpid]`): the text
after the last dot is the shuffle index when it validates as an integer;
when validation fails the index is dropped with a warning (second
component `true`). -/
def decodeShuffle (seg : List Char) : List Char × Bool :=
  match rfindIdx seg '.' with
  | none => ([], false)
  | some i =>
    let sh := seg.drop (i + 1)
    if sh = [] then ([], false)
    else if pyIntValid sh then (sh, false) else ([], true)

/-- Accumulation output file path of a candidate group (benchapps.py lines
190-195): a shuffle-bearing group drops the extension of its measure
log-subdirectory path (which carries the shuffle index and the path-id)
and re-appends the path-id; a group without shuffle keeps the whole path;
the measure name is appended as the extension. -/
def taskoutpOf (logsbase shuffle pathid evalname : List Char) : List Char :=
  let t := if shuffle ≠ [] then (pySplitext logsbase).1 else logsbase
  let t := if shuffle ≠ [] ∧ pathid ≠ [] then t ++ pathid else t
  t ++ '.' :: evalname

/-! ## preparePath (benchapps.py lines 53-90) -/

/-- Result of the base-path coalescing of preparePath, together with
whether the trailing instance segment failed integer validation (the
`except ValueError: pass` branch, lines 79-83) and the diagnostics the
code prints while coalescing (it prints none). -/
structure Coalesced where
  mainpath : List Char
  invalidInst : Bool
  warnings : List (List Char)
deriving DecidableEq

/-- Name coalescing of preparePath before the instance split (lines
66-75): split off the last path component, strip its extension, truncate
it at the leftmost of the rightmost instance/params separators when that
position is at least 1, and rejoin with a slash. -/
def coalesceBase (taskpath : List Char) : List Char :=
  let mp := (pySplit taskpath).1
  let name := (pySplit taskpath).2
  if name ≠ [] then
    let name1 := (pySplitext name).1
    let cands := ([rfindIdx name1 SEPINST, rfindIdx name1 SEPPARS].filterMap id).filter
      (fun x => 1 ≤ x)
    let name2 :=
      match minNat cands with
      | some p => name1.take p
      | none => name1
    mp ++ '/' :: name2
  else mp

/-- Full coalescing of preparePath (lines 66-86): after the name
coalescing, strip a trailing instance suffix when the text after the last
instance separator validates as an integer; otherwise keep the path
unchanged, silently (the source has `pass` in the except branch and prints
nothing). -/
def coalesce (taskpath : List Char) : Coalesced :=
  let mp := coalesceBase taskpath
  match rsplitLast mp SEPINST with
  | none => ⟨mp, false, []⟩
  | some (pre, suf) =>
    if pyIntValid suf then ⟨pre, false, []⟩ else ⟨mp, true, []⟩

/-- Filesystem model for preparePath: the existing paths, each with a flag
telling whether the directory is non-empty, plus the list of base paths
handed to backupPath so far. -/
structure BFS where
  entries : List (List Char × Bool)
  backups : List (List Char)
deriving DecidableEq

/-- Whether a path exists in the filesystem model (`os.path.exists`). -/
def fsHas (fs : BFS) (p : List Char) : Bool :=
  fs.entries.any (fun e => e.1 == p)

/-- Whether an existing path is a non-empty directory (negation of the
`dirempty` collaborator of benchutils). -/
def fsNonempty (fs : BFS) (p : List Char) : Bool :=
  match fs.entries.find? (fun e => e.1 == p) with
  | some e => e.2
  | none => false

/-- Modelled from the spec: `backupPath(mainpath, True)` of benchutils is
not under src/.  Per spec section 4.2 it moves the whole coalesced group
aside to a timestamped backup location, so that a later invocation for a
sibling variant finds nothing left to move; hence it removes every
filesystem entry whose path starts with the given coalesced base, and the
base is recorded as backed up. -/
def backupPathM (fs : BFS) (base : List Char) : BFS :=
  ⟨fs.entries.filter (fun e => !(base.isPrefixOf e.1)), fs.backups ++ [base]⟩

/-- Creation of a fresh empty directory (`os.makedirs`). -/
def makedirsM (fs : BFS) (p : List Char) : BFS :=
  ⟨fs.entries ++ [(p, false)], fs.backups⟩

/-- preparePath (benchapps.py lines 53-90): when the task path exists and
is not empty, back up the coalesced base; afterwards create the task path
when it does not exist. -/
def preparePathM (fs : BFS) (taskpath : List Char) : BFS :=
  let fs1 :=
    if fsHas fs taskpath && fsNonempty fs taskpath then
      backupPathM fs (coalesce taskpath).mainpath
    else fs
  if fsHas fs1 taskpath then fs1 else makedirsM fs1 taskpath

/-! ## Per-group output preparation and measure dispatch (lines 183-197, 438-445) -/

/-- State of one candidate group before job building: the measure
log-subdirectory (with its files when it exists) and the accumulation
output file (with its contents when it exists). -/
structure GroupFS where
  logsDir : Option (List (List Char))
  outfile : Option (List Char)
deriving DecidableEq

/-- Per-group output preparation of evalGeneric (lines 185-197): with
`tidy` an existing log subdirectory is removed, then the subdirectory is
created when `tidy` is set or it does not exist; with `tidy` an existing
accumulation file is removed. -/
def prepareGroup (tidy : Bool) (fs : GroupFS) : GroupFS :=
  let ld := if tidy && fs.logsDir.isSome then none else fs.logsDir
  let ld := if tidy || ld.isNone then some [] else ld
  let out := if tidy && fs.outfile.isSome then none else fs.outfile
  ⟨ld, out⟩

/-- Measure dispatch of evalAlgorithm (lines 438-445): the measure
subdirectory and tidy flag passed to evalGeneric for each measure name;
an unknown measure raises ValueError (`none`). -/
def measureCfg (measure : List Char) : Option (List Char × Bool) :=
  if measure = str "mod" then some (str "mod/", true)
  else if measure = str "nmi" then some (str "nmi/", true)
  else if measure = str "nmi_s" then some (str "nmi/", false)
  else none

/-! ## Modularity aggregation callback aggLevs (benchapps.py lines 282-305) -/

/-- Header line of the modularity accumulation file, without newline. -/
def headerLineMod : List Char := str "# Q\t[ShuffleIndex_]Level"

/-- Header row written to an empty modularity accumulation file. -/
def headerMod : List Char := headerLineMod ++ ['\n']

/-- Expected prefix of the modularity job output. -/
def targpref : List Char := str "mod: "

/-- Error message printed by aggLevs for a non-conforming job output
(line 290), naming the job and the raw output. -/
def errMsgMod (jobname output : List Char) : List Char :=
  str "ERROR, job \"" ++ jobname ++
    str "\" has invalid output format. Moularity value is not found in:\n" ++ output

/-- Fallback warning template of aggLevs (lines 304-305); it carries three
format placeholders. -/
def onjdWarnTmpl : List Char :=
  str "WARNING, task \"\x7b\x7d\" of job \"\x7b\x7d\" has no defined onjobdone() to aggregate results:\n\x7b\x7d"

/-- Number of positional `\x7b\x7d` placeholders in a format template. -/
def countPlaceholders : List Char → Nat
  | [] => 0
  | '\x7b' :: '\x7d' :: rest => countPlaceholders rest + 1
  | _ :: rest => countPlaceholders rest

/-- One append of a value row to the accumulation file (lines 294-299):
open in append mode (creating an absent file empty), write the header when
the file size is zero, then write the row `value TAB suffix NEWLINE`. -/
def appendAgg (header v suff : List Char) (file : Option (List Char)) : List Char :=
  let c := file.getD []
  (if c = [] then header else c) ++ v ++ '\t' :: (suff ++ ['\n'])

/-- How a run of the aggLevs callback ends. -/
inductive AggOutcome where
  | ok : AggOutcome
  | errLogged : AggOutcome
  | raisedFormatError : AggOutcome
deriving DecidableEq

/-- Result of one run of the aggLevs callback: the accumulation file
contents (none when absent), the messages printed to stderr, and how the
run ended. -/
structure AggResult where
  file : Option (List Char)
  logs : List (List Char)
  outcome : AggOutcome
deriving DecidableEq

/-- The modularity aggLevs callback (lines 282-305).  `parseF` stands for
the external collaborator `parseFloat` of benchutils applied to the text
after the prefix, returning the matched float literal when one is found;
`hasOnJobDone` is the truth value of `job.task and job.task.onjobdone`.
When the output does not carry the expected prefix (or no float is
matched) an error naming the job and raw output is printed and nothing is
written.  Otherwise the row is appended; then, without a truthy
`onjobdone`, the fallback warning is formatted with two arguments - and
Python `str.format` raises IndexError when the positional placeholders
outnumber the arguments, which they do here, so the callback raises after
the row was already flushed. -/
def aggLevsMod (parseF : List Char → Option (List Char))
    (jobname output jobsuff : List Char) (hasOnJobDone : Bool)
    (file : Option (List Char)) : AggResult :=
  let mod := if targpref.isPrefixOf output then parseF (output.drop targpref.length) else none
  match mod with
  | none => ⟨file, [errMsgMod jobname output], .errLogged⟩
  | some v =>
    let contents := appendAgg headerMod v jobsuff file
    if hasOnJobDone then ⟨some contents, [], .ok⟩
    else
      if ([jobname, output] : List (List Char)).length < countPlaceholders onjdWarnTmpl then
        ⟨some contents, [], .raisedFormatError⟩
      else ⟨some contents, [onjdWarnTmpl], .ok⟩

/-- Serialized run of the aggLevs append step over a list of
`(value, suffix)` rows, starting from a given accumulation-file state. -/
def recordRows (rows : List (List Char × List Char)) (init : Option (List Char)) :
    Option (List Char) :=
  rows.foldl (fun f r => some (appendAgg headerMod r.1 r.2 f)) init

/-- Split a character sequence into lines at newline characters; text
after the last newline, when non-empty, forms a final line. -/
def linesOf : List Char → List (List Char)
  | [] => []
  | c :: cs =>
    if c = '\n' then [] :: linesOf cs
    else
      match linesOf cs with
      | [] => [[c]]
      | l :: ls => (c :: l) :: ls

/-! ## Job submission and the final warning of evalGeneric (lines 221-231) -/

/-- One glob candidate of the cluster-directory scan: its name, whether it
is a directory, and how many job-producing result files it contains. -/
structure Cand where
  name : List Char
  isdir : Bool
  files : Nat
deriving DecidableEq

/-- One step of the candidate scan of evalGeneric: non-directories are
skipped before `clsname` is assigned; a directory binds `clsname` and,
when accepted, contributes one job per result file. -/
def scanStep (pathid taskcapt : List Char) (st : Option (List Char) × Nat) (c : Cand) :
    Option (List Char) × Nat :=
  if c.isdir then
    if acceptGroup pathid taskcapt c.name then (some c.name, st.2 + c.files)
    else (some c.name, st.2)
  else st

/-- How evalGeneric ends after the candidate scan. -/
inductive EvalEnd where
  | submitted (jobs : Nat) : EvalEnd
  | warned (algname cls : List Char) : EvalEnd
  | raisedNameError : EvalEnd
deriving DecidableEq

/-- The end of evalGeneric (lines 221-231): when jobs were built they are
submitted (submission errors are caught per job); otherwise a warning
naming the algorithm and the last-seen candidate name is printed - but
that print reads the loop variable `clsname`, which is unbound when no
directory candidate was ever examined, so Python raises
UnboundLocalError there. -/
def evalGenericEnd (pathid taskcapt algname : List Char) (cands : List Cand) : EvalEnd :=
  let st := cands.foldl (scanStep pathid taskcapt) (none, 0)
  if st.2 ≠ 0 then .submitted st.2
  else
    match st.1 with
    | some cls => .warned algname cls
    | none => .raisedNameError

/-! ## Helper lemmas about the embedded string primitives -/

theorem rfindIdx_eq_none {l : List Char} {c : Char} (h : c ∉ l) : rfindIdx l c = none := by
  induction l with
  | nil => rfl
  | cons x xs ih =>
    simp only [List.mem_cons, not_or] at h
    simp [rfindIdx, ih h.2, Ne.symm h.1]

theorem rfindIdx_append_not_mem (a : List Char) {b : List Char} {c : Char} (h : c ∉ b) :
    rfindIdx (a ++ b) c = rfindIdx a c := by
  induction a with
  | nil => simp [rfindIdx_eq_none h, rfindIdx]
  | cons x xs ih => simp [rfindIdx, ih]

theorem rfindIdx_append_cons (a : List Char) {b : List Char} {c : Char} (h : c ∉ b) :
    rfindIdx (a ++ c :: b) c = some a.length := by
  induction a with
  | nil => simp [rfindIdx, rfindIdx_eq_none h]
  | cons x xs ih => simp [rfindIdx, ih]

theorem rfindIdx_lt_length {l : List Char} {c : Char} {i : Nat}
    (h : rfindIdx l c = some i) : i < l.length := by
  induction l generalizing i with
  | nil => simp [rfindIdx] at h
  | cons x xs ih =>
    simp only [rfindIdx] at h
    cases hx : rfindIdx xs c with
    | some j =>
      rw [hx] at h
      simp only [Option.some.injEq] at h
      have := ih hx
      simp only [List.length_cons]
      omega
    | none =>
      rw [hx] at h
      by_cases hxc : x = c
      · rw [if_pos hxc] at h
        simp only [Option.some.injEq] at h
        simp [← h]
      · rw [if_neg hxc] at h
        cases h

theorem isDigit_not_ws {c : Char} (h : c.isDigit = true) : c.isWhitespace = false := by
  simp only [Char.isWhitespace, Bool.or_eq_false_iff, decide_eq_false_iff_not]
  simp only [Char.isDigit, Bool.and_eq_true, decide_eq_true_eq] at h
  refine ⟨⟨⟨?_, ?_⟩, ?_⟩, ?_⟩ <;> rintro rfl <;> simp_all

theorem isDigit_ne {c d : Char} (h : c.isDigit = true) (hd : d.isDigit = false) : c ≠ d := by
  intro e
  subst e
  rw [hd] at h
  exact Bool.false_ne_true h

theorem dropWhile_eq_self_of_all {p : Char → Bool} {l : List Char}
    (h : ∀ x ∈ l, p x = false) : l.dropWhile p = l := by
  cases l with
  | nil => rfl
  | cons x xs => simp [List.dropWhile_cons, h x (by simp)]

theorem pyTrim_eq_self {l : List Char} (h : ∀ x ∈ l, x.isWhitespace = false) :
    pyTrim l = l := by
  unfold pyTrim
  rw [dropWhile_eq_self_of_all h, dropWhile_eq_self_of_all, List.reverse_reverse]
  intro x hx
  exact h x (List.mem_reverse.mp hx)

theorem pyIntValid_digits {l : List Char} (hne : l ≠ []) (hd : l.all Char.isDigit = true) :
    pyIntValid l = true := by
  have hall : ∀ x ∈ l, x.isDigit = true := by simpa [List.all_eq_true] using hd
  have hws : ∀ x ∈ l, x.isWhitespace = false := fun x hx => isDigit_not_ws (hall x hx)
  unfold pyIntValid
  rw [pyTrim_eq_self hws]
  cases l with
  | nil => exact absurd rfl hne
  | cons c rest =>
    have hc : c.isDigit = true := hall c (by simp)
    have hns : ¬(c = '+' ∨ c = '-') :=
      not_or.mpr ⟨isDigit_ne hc (by decide), isDigit_ne hc (by decide)⟩
    rw [pyIntValidCore, if_neg hns]
    exact hd

theorem not_mem_of_all_isDigit {l : List Char} {d : Char} (hd : l.all Char.isDigit = true)
    (h : d.isDigit = false) : d ∉ l := by
  intro hm
  have := (List.all_eq_true.mp hd) d hm
  rw [h] at this
  exact Bool.false_ne_true this

/-! ## Claim C1 -/

/-- Claim C1, counterexample.  The claim states that a candidate strictly
longer than the base caption is excluded unless the character right after
the caption is the instance separator, so that candidate net2 for caption
net is rejected and contributes no jobs.  The code (benchapps.py line 164)
does the opposite: it skips a longer candidate exactly when that character
IS the instance separator, so net2 is accepted. -/
theorem evalGeneric_longer_candidate_kept_ce :
    acceptGroup [] (str "net") (str "net2") = true ∧
    (str "net").length < (str "net2").length ∧
    (str "net2")[(str "net").length]? = some '2' := by decide

/-- Claim C1, amended: among candidates passing the path-id filter, the
instance filter of evalGeneric (line 164) excludes a candidate exactly
when it is strictly longer than the base caption and the character right
after the caption is the instance separator; all other candidates
(for example net2 for caption net) are kept. -/
theorem evalGeneric_instance_filter (pathid taskcapt cls : List Char)
    (h : pathidFilter pathid cls ≠ .skip) :
    acceptGroup pathid taskcapt cls = false ↔
      (taskcapt.length < cls.length ∧ cls[taskcapt.length]? = some SEPINST) := by
  unfold acceptGroup
  cases hp : pathidFilter pathid cls with
  | skip => exact absurd hp h
  | accept w => simp

/-- Claim C1, witness for the amended theorem at a concrete input: the
candidate with an instance suffix is excluded for the plain caption. -/
theorem evalGeneric_instance_filter_witness :
    acceptGroup [] (str "net") (str "net^1") = false :=
  (evalGeneric_instance_filter [] (str "net") (str "net^1") (by decide)).mpr (by decide)

/-! ## Claim C2 -/

/-- Claim C2 (code bug): the claim says that when no candidate group
directory matches, evalGeneric warns and returns normally.  In the code
the final warning (line 231) formats the loop variable `clsname`, which
was never assigned when the glob produced no directory candidate, so
Python raises UnboundLocalError instead of warning; the warning path is
reached only when at least one directory candidate was examined. -/
theorem evalGeneric_no_candidates_raises :
    evalGenericEnd [] (str "net") (str "algoX") [] = .raisedNameError ∧
    evalGenericEnd [] (str "net") (str "algoX")
      [⟨str "net.log", false, 0⟩] = .raisedNameError ∧
    evalGenericEnd [] (str "net") (str "algoX")
      [⟨str "net^1", true, 3⟩] = .warned (str "algoX") (str "net^1") := by decide

/-! ## Claim C4 -/

/-- Claim C4, counterexample.  The claim states that a diagnostic warning
is emitted for every malformed numeric segment, including the
instance/params coalescing of preparePath.  For the task path
res/net^2/sub the text after the last instance separator is 2/sub, which
fails integer validation; preparePath folds it back (the path is kept
unchanged) but its except-branch is a bare pass, so no warning at all is
printed. -/
theorem preparePath_no_warning_ce :
    coalesce (str "res/net^2/sub") = ⟨str "res/net^2/sub", true, []⟩ := by decide

/-- Claim C4, amended: decoding never raises - a segment failing integer
validation is treated as not present and folded back into the base name;
the shuffle and path-id decoding of evalGeneric emit a diagnostic warning,
while the instance coalescing of preparePath folds the segment back
silently, emitting no diagnostic. -/
theorem decode_tolerant (seg cls tp : List Char) :
    (∀ i, rfindIdx seg '.' = some i → seg.drop (i + 1) ≠ [] →
      pyIntValid (seg.drop (i + 1)) = false → decodeShuffle seg = ([], true)) ∧
    (∀ i, rfindIdx cls SEPPATHID = some i → i + 1 < cls.length →
      pyIntValid (pidPayload cls i) = false → pathidFilter [] cls = .accept true) ∧
    ((coalesce tp).warnings = [] ∧
      ((coalesce tp).invalidInst = true → (coalesce tp).mainpath = coalesceBase tp)) := by
  refine ⟨?_, ?_, ?_⟩
  · intro i h hne hval
    unfold decodeShuffle
    rw [h]
    simp [hne, hval]
  · intro i h hlt hval
    unfold pathidFilter
    rw [if_neg (by simp), h]
    simp [hlt, hval]
  · unfold coalesce
    cases hr : rsplitLast (coalesceBase tp) SEPINST with
    | none => simp [hr]
    | some pr =>
      obtain ⟨pre, suf⟩ := pr
      by_cases hv : pyIntValid suf = true
      · simp [hr, hv]
      · simp only [Bool.not_eq_true] at hv
        simp [hr, hv]

/-- Claim C4, witness for the amended theorem at concrete inputs: a
malformed shuffle index is dropped with a warning, a malformed path-id
suffix is kept with a warning, and the malformed instance segment of
preparePath produces no warning. -/
theorem decode_tolerant_witness :
    decodeShuffle (str "net.ab") = ([], true) ∧
    pathidFilter [] (str "net#ab") = .accept true ∧
    (coalesce (str "res/net^2/sub")).warnings = [] :=
  ⟨(decode_tolerant (str "net.ab") (str "net#ab") (str "res/net^2/sub")).1 3
      (by decide) (by decide) (by decide),
   (decode_tolerant (str "net.ab") (str "net#ab") (str "res/net^2/sub")).2.1 3
      (by decide) (by decide) (by decide),
   (decode_tolerant (str "net.ab") (str "net#ab") (str "res/net^2/sub")).2.2.1⟩

/-! ## Claim C8 -/

/-- Claim C8: with tidy, the per-group preparation of evalGeneric (lines
185-197) deletes the pre-existing measure log subdirectory and the
pre-existing accumulation file before jobs are built, leaving a fresh
empty subdirectory and no accumulation file; without tidy both are
preserved (the subdirectory is created only when absent); and
evalAlgorithm dispatches nmi_s with tidy false but mod and nmi with tidy
true (lines 438-443). -/
theorem evalGeneric_tidy_frame (fs : GroupFS) :
    (prepareGroup true fs = ⟨some [], none⟩) ∧
    (fs.logsDir.isSome = true → prepareGroup false fs = fs) ∧
    (fs.logsDir = none → prepareGroup false fs = ⟨some [], fs.outfile⟩) ∧
    measureCfg (str "mod") = some (str "mod/", true) ∧
    measureCfg (str "nmi") = some (str "nmi/", true) ∧
    measureCfg (str "nmi_s") = some (str "nmi/", false) := by
  obtain ⟨ld, out⟩ := fs
  refine ⟨?_, ?_, ?_, by decide, by decide, by decide⟩
  · cases ld <;> cases out <;> simp [prepareGroup]
  · intro h
    cases ld with
    | none => simp at h
    | some d => cases out <;> simp [prepareGroup]
  · intro h
    cases ld with
    | none => cases out <;> simp [prepareGroup]
    | some d => simp at h

/-- Claim C8, witness: with tidy false an existing log subdirectory and
accumulation file are preserved unchanged. -/
theorem evalGeneric_tidy_frame_witness :
    prepareGroup false ⟨some [str "x.log"], some (str "data")⟩
      = ⟨some [str "x.log"], some (str "data")⟩ :=
  (evalGeneric_tidy_frame ⟨some [str "x.log"], some (str "data")⟩).2.1 (by decide)

/-! ## Claim C7 -/

/-- Claim C7: when the captured output of a modularity job does not start
with the literal prefix, the aggLevs callback (lines 288-292) logs exactly
one error message - which names the job and carries the raw output - and
returns without touching the accumulation file: an absent file stays
absent and existing contents stay unchanged. -/
theorem aggLevs_bad_output (parseF : List Char → Option (List Char))
    (jobname output jobsuff : List Char) (hojd : Bool) (file : Option (List Char))
    (h : targpref.isPrefixOf output = false) :
    aggLevsMod parseF jobname output jobsuff hojd file
      = ⟨file, [errMsgMod jobname output], .errLogged⟩ ∧
    (str "ERROR, job \"" ++ jobname) <+: errMsgMod jobname output ∧
    output <:+ errMsgMod jobname output := by
  refine ⟨?_, ?_, ?_⟩
  · unfold aggLevsMod
    simp [h]
  · exact ⟨str "\" has invalid output format. Moularity value is not found in:\n" ++ output,
      by simp [errMsgMod]⟩
  · exact ⟨str "ERROR, job \"" ++ jobname ++
      str "\" has invalid output format. Moularity value is not found in:\n",
      by simp [errMsgMod]⟩

/-- Claim C7, witness: a job with output not starting with the prefix
leaves an absent accumulation file absent and logs one error. -/
theorem aggLevs_bad_output_witness :
    aggLevsMod some (str "mod_net_algoX") (str "oops") (str "1") true none
      = ⟨none, [errMsgMod (str "mod_net_algoX") (str "oops")], .errLogged⟩ :=
  (aggLevs_bad_output some (str "mod_net_algoX") (str "oops") (str "1") true none
    (by decide)).1

/-! ## Claim C10 -/

/-- Claim C10: for a modularity job whose output parses successfully but
whose task has no truthy onjobdone, the aggLevs callback appends the value
row first and then formats the fallback warning (lines 304-305) with two
arguments while the template holds three placeholders, so Python
str.format raises IndexError: the callback raises after the row was
already written. -/
theorem aggLevs_onjobdone_format_raises (parseF : List Char → Option (List Char))
    (jobname output jobsuff v : List Char) (file : Option (List Char))
    (hpre : targpref.isPrefixOf output = true)
    (hparse : parseF (output.drop targpref.length) = some v) :
    aggLevsMod parseF jobname output jobsuff false file
      = ⟨some (appendAgg headerMod v jobsuff file), [], .raisedFormatError⟩ ∧
    countPlaceholders onjdWarnTmpl = 3 ∧
    ([jobname, output] : List (List Char)).length = 2 := by
  refine ⟨?_, by decide, rfl⟩
  unfold aggLevsMod
  rw [if_pos hpre, hparse]
  simp [show (2 : Nat) < countPlaceholders onjdWarnTmpl from by decide]

/-- Claim C10, witness: with a concrete parser and conforming output, the
callback raises the format error while the row is flushed to the
previously absent accumulation file (header plus the value row). -/
theorem aggLevs_onjobdone_format_raises_witness :
    aggLevsMod some (str "j") (str "mod: 0.5") (str "1") false none
      = ⟨some (appendAgg headerMod (str "0.5") (str "1") none), [], .raisedFormatError⟩ :=
  (aggLevs_onjobdone_format_raises some (str "j") (str "mod: 0.5") (str "1")
    (str "0.5") none (by decide) (by decide)).1

/-! ## Claim C6 -/

theorem recordRows_acc (rows : List (List Char × List Char)) :
    ∀ acc : List Char, acc ≠ [] →
      recordRows rows (some acc)
        = some (acc ++ (rows.map (fun r => r.1 ++ '\t' :: (r.2 ++ ['\n']))).flatten) := by
  induction rows with
  | nil =>
    intro acc h
    simp [recordRows]
  | cons r rest ih =>
    intro acc h
    unfold recordRows at ih ⊢
    rw [List.foldl_cons]
    have h1 : appendAgg headerMod r.1 r.2 (some acc)
        = acc ++ (r.1 ++ '\t' :: (r.2 ++ ['\n'])) := by
      unfold appendAgg
      simp [h]
    rw [h1, ih (acc ++ (r.1 ++ '\t' :: (r.2 ++ ['\n']))) (by simp)]
    simp

theorem linesOf_append_line (a : List Char) {rest : List Char} (h : '\n' ∉ a) :
    linesOf (a ++ '\n' :: rest) = a :: linesOf rest := by
  induction a with
  | nil => simp [linesOf]
  | cons x xs ih =>
    simp only [List.mem_cons, not_or] at h
    simp [linesOf, Ne.symm h.1, ih h.2, h.1]

theorem linesOf_flatten (ls : List (List Char)) (h : ∀ l ∈ ls, '\n' ∉ l) :
    linesOf ((ls.map (fun l => l ++ ['\n'])).flatten) = ls := by
  induction ls with
  | nil => simp [linesOf]
  | cons l rest ih =>
    simp only [List.map_cons, List.flatten_cons]
    have he : (l ++ ['\n']) ++ (rest.map (fun l => l ++ ['\n'])).flatten
        = l ++ '\n' :: (rest.map (fun l => l ++ ['\n'])).flatten := by simp
    rw [he, linesOf_append_line l (h l (by simp)), ih (fun x hx => h x (by simp [hx]))]

/-- Claim C6: in the aggLevs append step the header row is written exactly
when the accumulation file has size zero at append time, and the data row
follows it; consequently, under serialized callback execution starting
from an absent or empty file, the accumulation file holds the header line
once, as its first line, followed by one line per recorded value, while an
append to a non-empty file never rewrites the header. -/
theorem aggLevs_header_once (rows : List (List Char × List Char))
    (init : Option (List Char)) (v s : List Char)
    (hinit : init = none ∨ init = some [])
    (hne : rows ≠ [])
    (hnl : ∀ r ∈ rows, ('\n' : Char) ∉ r.1 ∧ ('\n' : Char) ∉ r.2)
    (hnh : ∀ r ∈ rows, r.1 ++ '\t' :: r.2 ≠ headerLineMod) :
    recordRows rows init
      = some (headerMod ++ (rows.map (fun r => r.1 ++ '\t' :: (r.2 ++ ['\n']))).flatten) ∧
    linesOf (headerMod ++ (rows.map (fun r => r.1 ++ '\t' :: (r.2 ++ ['\n']))).flatten)
      = headerLineMod :: rows.map (fun r => r.1 ++ '\t' :: r.2) ∧
    List.count headerLineMod
      (linesOf (headerMod ++ (rows.map (fun r => r.1 ++ '\t' :: (r.2 ++ ['\n']))).flatten))
      = 1 ∧
    (linesOf (headerMod ++ (rows.map (fun r => r.1 ++ '\t' :: (r.2 ++ ['\n']))).flatten)).head?
      = some headerLineMod ∧
    (∀ f : Option (List Char), f.getD [] ≠ [] →
      appendAgg headerMod v s f = f.getD [] ++ (v ++ '\t' :: (s ++ ['\n']))) := by
  have hmap : rows.map (fun r => r.1 ++ '\t' :: (r.2 ++ ['\n']))
      = (rows.map (fun r => r.1 ++ '\t' :: r.2)).map (fun l => l ++ ['\n']) := by
    rw [List.map_map]
    exact List.map_congr_left (fun r _ => by simp)
  have hlines :
      linesOf (headerMod ++ (rows.map (fun r => r.1 ++ '\t' :: (r.2 ++ ['\n']))).flatten)
        = headerLineMod :: rows.map (fun r => r.1 ++ '\t' :: r.2) := by
    rw [hmap]
    have hh : headerMod ++ ((rows.map (fun r => r.1 ++ '\t' :: r.2)).map
          (fun l => l ++ ['\n'])).flatten
        = (((headerLineMod :: rows.map (fun r => r.1 ++ '\t' :: r.2)).map
          (fun l => l ++ ['\n']))).flatten := by
      simp [headerMod]
    rw [hh]
    apply linesOf_flatten
    intro l hl
    rcases List.mem_cons.mp hl with h | h
    · subst h
      decide
    · obtain ⟨r, hr, hrl⟩ := List.mem_map.mp h
      subst hrl
      have := hnl r hr
      simp only [List.mem_append, List.mem_cons, not_or]
      exact ⟨this.1, by decide, this.2⟩
  refine ⟨?_, hlines, ?_, ?_, ?_⟩
  · cases rows with
    | nil => exact absurd rfl hne
    | cons r rest =>
      have hfirst : appendAgg headerMod r.1 r.2 init
          = headerMod ++ (r.1 ++ '\t' :: (r.2 ++ ['\n'])) := by
        rcases hinit with h | h <;> subst h <;> unfold appendAgg <;> simp
      unfold recordRows
      rw [List.foldl_cons]
      have := recordRows_acc rest (headerMod ++ (r.1 ++ '\t' :: (r.2 ++ ['\n'])))
        (by simp [headerMod])
      unfold recordRows at this
      rw [hfirst, this]
      simp
  · rw [hlines, List.count_cons_self, List.count_eq_zero.mpr]
    intro hm
    obtain ⟨r, hr, hrl⟩ := List.mem_map.mp hm
    exact hnh r hr hrl
  · rw [hlines]
    rfl
  · intro f hf
    unfold appendAgg
    simp [hf]

/-- Claim C6, witness: two serialized appends of shuffle rows to an absent
accumulation file produce the header once, as the first line, followed by
the two value rows. -/
theorem aggLevs_header_once_witness :
    recordRows [(str "0.4", str "1_3"), (str "0.5", str "2_3")] none
      = some (headerMod ++ (([(str "0.4", str "1_3"), (str "0.5", str "2_3")].map
          (fun r => r.1 ++ '\t' :: (r.2 ++ ['\n']))).flatten)) ∧
    List.count headerLineMod
      (linesOf (headerMod ++ (([(str "0.4", str "1_3"), (str "0.5", str "2_3")].map
          (fun r => r.1 ++ '\t' :: (r.2 ++ ['\n']))).flatten))) = 1 :=
  ⟨(aggLevs_header_once [(str "0.4", str "1_3"), (str "0.5", str "2_3")] none
      (str "0.6") (str "x") (Or.inl rfl) (by decide) (by decide) (by decide)).1,
   (aggLevs_header_once [(str "0.4", str "1_3"), (str "0.5", str "2_3")] none
      (str "0.6") (str "x") (Or.inl rfl) (by decide) (by decide) (by decide)).2.2.1⟩

/-! ## Claim C9 -/

theorem preparePathM_noop {fs : BFS} {tp : List Char}
    (h2 : fsHas fs tp = true) (h3 : fsNonempty fs tp = false) :
    preparePathM fs tp = fs := by
  unfold preparePathM
  simp [h2, h3]

theorem filter_no_base_pred {base tp : List Char} {entries : List (List Char × Bool)}
    (hpre : base.isPrefixOf tp = true) :
    ∀ e ∈ entries.filter (fun e => !(base.isPrefixOf e.1)),
      ¬((fun e : List Char × Bool => e.1 == tp) e = true) := by
  intro e he hp
  have hmem := List.mem_filter.mp he
  have heq : e.1 = tp := beq_iff_eq.mp hp
  rw [heq, hpre] at hmem
  exact Bool.false_ne_true (by simpa using hmem.2)

/-- Claim C9: for an existing non-empty task path whose coalesced base is
a prefix of the path, calling preparePath twice performs exactly one
backup: the first call hands the coalesced base (the task path with the
trailing instance/params suffix and extension stripped) to backupPath and
recreates the task path as an empty directory; the second call finds the
fresh empty directory, performs no backup, does not recreate anything, and
leaves the filesystem unchanged. -/
theorem preparePath_backup_once (fs : BFS) (tp : List Char)
    (hex : fsHas fs tp = true) (hne : fsNonempty fs tp = true)
    (hpre : (coalesce tp).mainpath.isPrefixOf tp = true) :
    (preparePathM fs tp).backups = fs.backups ++ [(coalesce tp).mainpath] ∧
    fsHas (preparePathM fs tp) tp = true ∧
    fsNonempty (preparePathM fs tp) tp = false ∧
    preparePathM (preparePathM fs tp) tp = preparePathM fs tp := by
  have hnotafter : fsHas (backupPathM fs (coalesce tp).mainpath) tp = false := by
    unfold fsHas backupPathM
    rw [List.any_eq_false]
    exact filter_no_base_pred hpre
  have e1 : preparePathM fs tp
      = ⟨(fs.entries.filter (fun e => !((coalesce tp).mainpath.isPrefixOf e.1)))
          ++ [(tp, false)], fs.backups ++ [(coalesce tp).mainpath]⟩ := by
    unfold preparePathM
    rw [hex, hne]
    simp only [Bool.and_self, if_true]
    rw [if_neg (by rw [hnotafter]; exact Bool.false_ne_true)]
    rfl
  have h2 : fsHas (preparePathM fs tp) tp = true := by
    rw [e1]
    unfold fsHas
    simp [List.any_append]
  have h3 : fsNonempty (preparePathM fs tp) tp = false := by
    rw [e1]
    unfold fsNonempty
    simp only [List.find?_append]
    rw [List.find?_eq_none.mpr (filter_no_base_pred hpre)]
    simp [List.find?_cons]
  exact ⟨by rw [e1], h2, h3, preparePathM_noop h2 h3⟩

/-- Claim C9, witness: a concretely populated filesystem with one
non-empty task directory carrying an instance suffix is backed up at the
coalesced base exactly once, and the second call changes nothing. -/
theorem preparePath_backup_once_witness :
    (preparePathM ⟨[(str "results/alg/clusters/net^1", true)], []⟩
        (str "results/alg/clusters/net^1")).backups
      = ([] : List (List Char)) ++ [(coalesce (str "results/alg/clusters/net^1")).mainpath] ∧
    preparePathM
        (preparePathM ⟨[(str "results/alg/clusters/net^1", true)], []⟩
          (str "results/alg/clusters/net^1"))
        (str "results/alg/clusters/net^1")
      = preparePathM ⟨[(str "results/alg/clusters/net^1", true)], []⟩
          (str "results/alg/clusters/net^1") :=
  ⟨(preparePath_backup_once ⟨[(str "results/alg/clusters/net^1", true)], []⟩
      (str "results/alg/clusters/net^1") (by decide) (by decide) (by decide)).1,
   (preparePath_backup_once ⟨[(str "results/alg/clusters/net^1", true)], []⟩
      (str "results/alg/clusters/net^1") (by decide) (by decide) (by decide)).2.2.2⟩

/-! ## Claim C3 -/

theorem drop_succ_append (x : List Char) (c : Char) (t : List Char) :
    (x ++ c :: t).drop (x.length + 1) = t := by
  have h1 : x.length + 1 = (x ++ [c]).length := by simp
  rw [List.append_cons, h1, List.drop_left]

theorem getElem?_succ_append (x : List Char) (c : Char) (t : List Char) :
    (x ++ c :: t)[x.length + 1]? = t[0]? := by
  have h1 : x.length + 1 = (x ++ [c]).length := by simp
  rw [List.append_cons, h1, List.getElem?_append_right (le_refl _)]
  simp

theorem exists_of_pyEndsWith {cls p : List Char} (h : pyEndsWith cls p = true) :
    cls = cls.take (cls.length - p.length) ++ p := by
  unfold pyEndsWith at h
  have hd := beq_iff_eq.mp h
  conv_lhs => rw [← List.take_append_drop (cls.length - p.length) cls]
  rw [hd]

theorem decodedPathid_eq_of_rfind {cls : List Char} {i : Nat}
    (hf : rfindIdx cls SEPPATHID = some i) :
    decodedPathid cls
      = if i + 1 < cls.length then
          (if pyIntValid (pidPayload cls i) = true then some (cls.drop i) else none)
        else none := by
  unfold decodedPathid
  rw [hf]

theorem decodedPathid_eq_none_of_rfind {cls : List Char}
    (hf : rfindIdx cls SEPPATHID = none) : decodedPathid cls = none := by
  unfold decodedPathid
  rw [hf]

theorem pathidFilter_nil_of_rfind {cls : List Char} {i : Nat}
    (hf : rfindIdx cls SEPPATHID = some i) :
    pathidFilter [] cls
      = if i + 1 < cls.length then
          (if pyIntValid (pidPayload cls i) = true then .skip else .accept true)
        else .accept false := by
  unfold pathidFilter
  rw [if_neg (by simp), hf]

theorem pathidFilter_nil_of_rfind_none {cls : List Char}
    (hf : rfindIdx cls SEPPATHID = none) : pathidFilter [] cls = .accept false := by
  unfold pathidFilter
  rw [if_neg (by simp), hf]

theorem pyEndsWith_of_decoded {cls p : List Char} (h : decodedPathid cls = some p) :
    pyEndsWith cls p = true := by
  cases hf : rfindIdx cls SEPPATHID with
  | none =>
    rw [decodedPathid_eq_none_of_rfind hf] at h
    cases h
  | some i =>
    rw [decodedPathid_eq_of_rfind hf] at h
    by_cases hlt : i + 1 < cls.length
    · rw [if_pos hlt] at h
      by_cases hv : pyIntValid (pidPayload cls i) = true
      · rw [if_pos hv] at h
        have hp := Option.some.inj h
        have hi : i < cls.length := rfindIdx_lt_length hf
        subst hp
        unfold pyEndsWith
        rw [List.length_drop]
        have he : cls.length - (cls.length - i) = i := by omega
        rw [he]
        exact beq_self_eq_true _
      · rw [if_neg hv] at h
        cases h
    · rw [if_neg hlt] at h
      cases h

theorem decoded_of_append_wf (X ds : List Char) (hne : ds ≠ [])
    (hdig : ds.all Char.isDigit = true) :
    decodedPathid (X ++ SEPPATHID :: ds) = some (SEPPATHID :: ds) ∧
    decodedPathid (X ++ SEPPATHID :: PATHIDFILE :: ds)
      = some (SEPPATHID :: PATHIDFILE :: ds) := by
  have hnm : SEPPATHID ∉ ds := not_mem_of_all_isDigit hdig (by decide)
  have hpos : 0 < ds.length := List.length_pos.mpr hne
  have hval : pyIntValid ds = true := pyIntValid_digits hne hdig
  constructor
  · obtain ⟨d, ds', rfl⟩ := List.exists_cons_of_ne_nil hne
    have hd0 : d.isDigit = true := by
      have := List.all_eq_true.mp hdig
      exact this d (by simp)
    have hr : rfindIdx (X ++ SEPPATHID :: d :: ds') SEPPATHID = some X.length :=
      rfindIdx_append_cons X hnm
    rw [decodedPathid_eq_of_rfind hr]
    rw [if_pos (by simp only [List.length_append, List.length_cons]; omega)]
    have hpay : pidPayload (X ++ SEPPATHID :: d :: ds') X.length = d :: ds' := by
      unfold pidPayload
      rw [getElem?_succ_append]
      have hdf : (((d :: ds')[0]? == some PATHIDFILE) : Bool) = false := by
        simp only [List.getElem?_cons_zero]
        have : d ≠ PATHIDFILE := isDigit_ne hd0 (by decide)
        simp [this]
      rw [if_neg (by rw [hdf]; exact Bool.false_ne_true), drop_succ_append]
    rw [if_pos (by rw [hpay]; exact hval), List.drop_left]
  · have hnm2 : SEPPATHID ∉ PATHIDFILE :: ds := by
      simp only [List.mem_cons, not_or]
      exact ⟨by decide, hnm⟩
    have hr : rfindIdx (X ++ SEPPATHID :: PATHIDFILE :: ds) SEPPATHID = some X.length :=
      rfindIdx_append_cons X hnm2
    rw [decodedPathid_eq_of_rfind hr]
    rw [if_pos (by simp only [List.length_append, List.length_cons]; omega)]
    have hpay : pidPayload (X ++ SEPPATHID :: PATHIDFILE :: ds) X.length = ds := by
      unfold pidPayload
      rw [getElem?_succ_append]
      rw [if_pos (by simp)]
      have h2 : X.length + 2 = (X ++ [SEPPATHID]).length + 1 := by simp
      have hres : X ++ SEPPATHID :: PATHIDFILE :: ds
          = (X ++ [SEPPATHID]) ++ PATHIDFILE :: ds := by simp
      rw [h2, hres, drop_succ_append]
    rw [if_pos (by rw [hpay]; exact hval), List.drop_left]

/-- Claim C3: with a well-formed requested path-id (separator plus digits,
optionally with the file marker after the separator), a candidate passes
the path-id filter of evalGeneric exactly when its decoded path-id equals
the requested one; with an empty request, a candidate is skipped exactly
when it carries a valid decodable path-id suffix, and a candidate whose
suffix fails integer validation is kept (with a warning) and processed as
having no path-id. -/
theorem evalGeneric_pathid_match (pathid cls ds : List Char)
    (hne : ds ≠ []) (hdig : ds.all Char.isDigit = true)
    (hp : pathid = SEPPATHID :: ds ∨ pathid = SEPPATHID :: PATHIDFILE :: ds) :
    (pathidFilter pathid cls = .accept false ↔ decodedPathid cls = some pathid) ∧
    (pathidFilter [] cls = .skip ↔ (decodedPathid cls).isSome = true) ∧
    (∀ i, rfindIdx cls SEPPATHID = some i → i + 1 < cls.length →
      pyIntValid (pidPayload cls i) = false → pathidFilter [] cls = .accept true) := by
  have hpne : pathid ≠ [] := by rcases hp with rfl | rfl <;> simp
  refine ⟨⟨?_, ?_⟩, ?_, ?_⟩
  · intro hacc
    unfold pathidFilter at hacc
    rw [if_pos hpne] at hacc
    cases hew : pyEndsWith cls pathid with
    | false =>
      rw [if_neg (by rw [hew]; exact Bool.false_ne_true)] at hacc
      cases hacc
    | true =>
      have hdecomp := exists_of_pyEndsWith hew
      rcases hp with rfl | rfl
      · rw [hdecomp]
        exact (decoded_of_append_wf _ ds hne hdig).1
      · rw [hdecomp]
        exact (decoded_of_append_wf _ ds hne hdig).2
  · intro hdec
    unfold pathidFilter
    rw [if_pos hpne, if_pos (pyEndsWith_of_decoded hdec)]
  · unfold pathidFilter decodedPathid
    rw [if_neg (by simp)]
    cases hf : rfindIdx cls SEPPATHID with
    | none => simp
    | some i =>
      by_cases hlt : i + 1 < cls.length
      · by_cases hv : pyIntValid (pidPayload cls i) = true
        · simp [hlt, hv]
        · simp only [Bool.not_eq_true] at hv
          simp [hlt, hv]
      · simp [hlt]
  · intro i hf hlt hv
    unfold pathidFilter
    rw [if_neg (by simp), hf]
    simp [hlt, hv]

/-- Claim C3, witness: the candidate carrying path-id 2 is accepted when
path-id 2 is requested and skipped when no path-id is requested. -/
theorem evalGeneric_pathid_match_witness :
    pathidFilter (str "#2") (str "net#2") = .accept false ∧
    pathidFilter [] (str "net#2") = .skip :=
  ⟨((evalGeneric_pathid_match (str "#2") (str "net#2") (str "2") (by decide) (by decide)
      (Or.inl (by decide))).1).mpr (by decide),
   ((evalGeneric_pathid_match (str "#2") (str "net#2") (str "2") (by decide) (by decide)
      (Or.inl (by decide))).2.1).mpr (by decide)⟩

/-! ## Claim C5 -/

/-- A stem is a good accumulation base when the part of it after its last
slash holds some character other than a dot; this is exactly the condition
under which os.path.splitext recognises a trailing extension. -/
def goodStem (stem : List Char) : Bool :=
  match rfindIdx stem '/' with
  | none => stem.any (fun c => c ≠ '.')
  | some i => (stem.drop (i + 1)).any (fun c => c ≠ '.')

/-- Start index of the file name given the last-slash search result
(`sepIndex + 1` of posixpath splitext, with `-1` for no slash). -/
def sepStart (sep : Option Nat) : Nat :=
  match sep with
  | none => 0
  | some i => i + 1

theorem extIndex_eq_of_rfind {p : List Char} {d : Nat} {sep : Option Nat}
    (hdot : rfindIdx p '.' = some d) (hsl : rfindIdx p '/' = sep) :
    extIndex p
      = if sepStart sep ≤ d ∧
          ((p.drop (sepStart sep)).take (d - sepStart sep)).any (fun c => c ≠ '.') then d
        else p.length := by
  subst hsl
  unfold extIndex sepStart
  rw [hdot]

theorem extIndex_concat (stem rest : List Char) (hg : goodStem stem = true)
    (hd : '.' ∉ rest) (hs : '/' ∉ rest) :
    extIndex (stem ++ '.' :: rest) = stem.length := by
  have hdot : rfindIdx (stem ++ '.' :: rest) '.' = some stem.length :=
    rfindIdx_append_cons stem hd
  have hnsl : '/' ∉ '.' :: rest := by
    simp only [List.mem_cons, not_or]
    exact ⟨by decide, hs⟩
  have hsl : rfindIdx (stem ++ '.' :: rest) '/' = rfindIdx stem '/' :=
    rfindIdx_append_not_mem stem hnsl
  unfold goodStem at hg
  cases hslv : rfindIdx stem '/' with
  | none =>
    rw [extIndex_eq_of_rfind hdot (hsl.trans hslv)]
    rw [hslv] at hg
    simp only [sepStart, List.drop_zero, Nat.sub_zero, List.take_left]
    rw [if_pos ⟨Nat.zero_le _, hg⟩]
  | some i =>
    have hi : i < stem.length := rfindIdx_lt_length hslv
    rw [extIndex_eq_of_rfind hdot (hsl.trans hslv)]
    rw [hslv] at hg
    have hdrop : (stem ++ '.' :: rest).drop (i + 1) = stem.drop (i + 1) ++ '.' :: rest :=
      List.drop_append_of_le_length (by omega)
    have hlen : stem.length - (i + 1) = (stem.drop (i + 1)).length := by
      rw [List.length_drop]
    have htake : ((stem ++ '.' :: rest).drop (i + 1)).take (stem.length - (i + 1))
        = stem.drop (i + 1) := by
      rw [hdrop, hlen, List.take_left]
    simp only [sepStart, htake]
    rw [if_pos ⟨by omega, hg⟩]

theorem pySplitext_concat (stem rest : List Char) (hg : goodStem stem = true)
    (hd : '.' ∉ rest) (hs : '/' ∉ rest) :
    pySplitext (stem ++ '.' :: rest) = (stem, '.' :: rest) := by
  unfold pySplitext
  rw [extIndex_concat stem rest hg hd hs, List.take_left, List.drop_left]

theorem decodeShuffle_eq_of_rfind {seg : List Char} {i : Nat}
    (hf : rfindIdx seg '.' = some i) :
    decodeShuffle seg
      = (if seg.drop (i + 1) = [] then ([], false)
         else if pyIntValid (seg.drop (i + 1)) = true then (seg.drop (i + 1), false)
         else ([], true)) := by
  unfold decodeShuffle
  rw [hf]

theorem decodeShuffle_concat (seg s : List Char) (hne : s ≠ [])
    (hdig : s.all Char.isDigit = true) :
    decodeShuffle (seg ++ '.' :: s) = (s, false) := by
  have hd : '.' ∉ s := not_mem_of_all_isDigit hdig (by decide)
  have hr : rfindIdx (seg ++ '.' :: s) '.' = some seg.length :=
    rfindIdx_append_cons seg hd
  rw [decodeShuffle_eq_of_rfind hr, drop_succ_append]
  rw [if_neg hne, if_pos (pyIntValid_digits hne hdig)]

/-- Claim C5: a candidate group bearing a valid shuffle index has the
index decoded from the text after the last dot; its accumulation output is
the log-subdirectory path with the extension (shuffle index plus path-id)
stripped, the requested path-id re-appended, and the measure name added as
extension - so two shuffle groups of the same base (same stem and path-id,
different shuffle indices) target the same accumulation file; a group
without shuffle uses its full log-subdirectory path plus the measure
extension. -/
theorem evalGeneric_shuffle_accumulation (stem s1 s2 pid ev lb ds : List Char)
    (hg : goodStem stem = true)
    (h1 : s1 ≠ []) (hd1 : s1.all Char.isDigit = true)
    (h2 : s2 ≠ []) (hd2 : s2.all Char.isDigit = true)
    (hpid : pid = [] ∨ (ds ≠ [] ∧ ds.all Char.isDigit = true ∧
      (pid = SEPPATHID :: ds ∨ pid = SEPPATHID :: PATHIDFILE :: ds))) :
    decodeShuffle (stem ++ '.' :: s1) = (s1, false) ∧
    taskoutpOf (stem ++ '.' :: (s1 ++ pid)) s1 pid ev = stem ++ (pid ++ '.' :: ev) ∧
    taskoutpOf (stem ++ '.' :: (s1 ++ pid)) s1 pid ev
      = taskoutpOf (stem ++ '.' :: (s2 ++ pid)) s2 pid ev ∧
    taskoutpOf lb [] pid ev = lb ++ '.' :: ev := by
  have hpdot : '.' ∉ pid := by
    rcases hpid with rfl | ⟨hne, hdig, hp | hp⟩
    · simp
    · subst hp
      simp only [List.mem_cons, not_or]
      exact ⟨by decide, not_mem_of_all_isDigit hdig (by decide)⟩
    · subst hp
      simp only [List.mem_cons, not_or]
      exact ⟨by decide, by decide, not_mem_of_all_isDigit hdig (by decide)⟩
  have hpsl : '/' ∉ pid := by
    rcases hpid with rfl | ⟨hne, hdig, hp | hp⟩
    · simp
    · subst hp
      simp only [List.mem_cons, not_or]
      exact ⟨by decide, not_mem_of_all_isDigit hdig (by decide)⟩
    · subst hp
      simp only [List.mem_cons, not_or]
      exact ⟨by decide, by decide, not_mem_of_all_isDigit hdig (by decide)⟩
  have key : ∀ s : List Char, s ≠ [] → s.all Char.isDigit = true →
      taskoutpOf (stem ++ '.' :: (s ++ pid)) s pid ev = stem ++ (pid ++ '.' :: ev) := by
    intro s hs hsd
    have hdot : '.' ∉ s ++ pid := by
      simp only [List.mem_append, not_or]
      exact ⟨not_mem_of_all_isDigit hsd (by decide), hpdot⟩
    have hsl : '/' ∉ s ++ pid := by
      simp only [List.mem_append, not_or]
      exact ⟨not_mem_of_all_isDigit hsd (by decide), hpsl⟩
    unfold taskoutpOf
    rw [pySplitext_concat stem (s ++ pid) hg hdot hsl]
    by_cases hpe : pid = []
    · simp [hs, hpe]
    · simp [hs, hpe]
  refine ⟨decodeShuffle_concat stem s1 h1 hd1, key s1 h1 hd1,
    (key s1 h1 hd1).trans (key s2 h2 hd2).symm, ?_⟩
  unfold taskoutpOf
  simp

/-- Claim C5, witness: shuffles 1 and 2 of the same base network target
the same accumulation file, and a group without shuffle keeps its full
path. -/
theorem evalGeneric_shuffle_accumulation_witness :
    taskoutpOf (str "results/algoX/mod/net1K" ++ '.' :: (str "1" ++ [])) (str "1") []
        (str "mod")
      = taskoutpOf (str "results/algoX/mod/net1K" ++ '.' :: (str "2" ++ [])) (str "2") []
        (str "mod") ∧
    taskoutpOf (str "results/algoX/mod/net1K") [] [] (str "mod")
      = str "results/algoX/mod/net1K" ++ '.' :: str "mod" :=
  ⟨(evalGeneric_shuffle_accumulation (str "results/algoX/mod/net1K") (str "1") (str "2")
      [] (str "mod") (str "results/algoX/mod/net1K") (str "7") (by decide) (by decide)
      (by decide) (by decide) (by decide) (Or.inl rfl)).2.2.1,
   (evalGeneric_shuffle_accumulation (str "results/algoX/mod/net1K") (str "1") (str "2")
      [] (str "mod") (str "results/algoX/mod/net1K") (str "7") (by decide) (by decide)
      (by decide) (by decide) (by decide) (Or.inl rfl)).2.2.2⟩

end PyCABeM
